import Mathlib

/-!
Verification development for the resumable S3 multipart uploader
(`s3-multipart-uploader.py`). The Python source is shallowly embedded:
pure computations become Lean functions over `Nat`/`Int`, the remote
object-storage service is an environment of responses, and each run is
summarised by the ordered list of remote calls it performs together with
its result (normal return, propagated exception, or `sys.exit` code).
-/

/-! ## Provider limits (module constants) -/

def MAX_ALLOWED_PART_COUNT_S3 : Nat := 10000

def MIN_REQUIRED_PART_SIZE_S3 : Nat := 5 * 1024 * 1024

/-- `math.ceil(a / b)` for natural `a` and positive natural `b`. -/
def ceilDiv (a b : Nat) : Nat := (a + b - 1) / b

/-! ## Errors and run outcomes

The Python program can terminate a run in three ways: raise a
`botocore` exception coming from a remote call (transport failure or
service error response), raise a plain `Exception`
(short read, unimplemented interactive abort), or call `sys.exit(n)`
after logging a diagnostic.  `S3Error.clientError` models
`botocore.exceptions.ClientError` (a service error response, e.g. 404);
`S3Error.transportError` models connection-level failures, which are not
`ClientError` and are never caught anywhere in the source. -/

inductive S3Error where
  | clientError (msg : String)
  | transportError (msg : String)
deriving DecidableEq

inductive RunError where
  | s3 (e : S3Error)
  | exitCode (code : Nat) (diag : String)
  | shortRead (expected got : Nat)
  | notImplemented
deriving DecidableEq

instance {ε α : Type} [DecidableEq ε] [DecidableEq α] : DecidableEq (Except ε α) := fun
  | .ok a, .ok b =>
    if h : a = b then .isTrue (by rw [h]) else .isFalse (by intro hc; cases hc; exact h rfl)
  | .error a, .error b =>
    if h : a = b then .isTrue (by rw [h]) else .isFalse (by intro hc; cases hc; exact h rfl)
  | .ok _, .error _ => .isFalse (by intro hc; cases hc)
  | .error _, .ok _ => .isFalse (by intro hc; cases hc)

/-! ## Data model (mirrors the Python dataclasses) -/

structure UploadedPart where
  number : Nat
  last_modified : String
  size : Nat
  etag : String
deriving DecidableEq

structure MultipartUploadInProgress where
  started_at : String
  upload_id : String
  initiator : String
  parts : List UploadedPart
deriving DecidableEq

/-- One entry of the `list_multipart_uploads` response (`Uploads` array). -/
structure RawUpload where
  uploadId : String
  key : String
  initiated : String
  initiator : String
deriving DecidableEq

/-- One `list_parts` response: `Parts`, `NextPartNumberMarker`, `IsTruncated`. -/
structure PartsPage where
  parts : List UploadedPart
  nextMarker : Option Nat
  isTruncated : Bool
deriving DecidableEq

/-- The chunking plan fixed by `_determine_part_count`. -/
structure ChunkPlan where
  part_size_in_bytes : Nat
  part_count : Nat
deriving DecidableEq

/-! ## PartPlanner: `_determine_part_count` -/

/-- The part size after the auto-determination step.  Python tests
`if not self.part_size_in_bytes`, which is true for both `None` and `0`,
and then assigns
`max(math.ceil(filesize / MAX_ALLOWED_PART_COUNT_S3), MIN_REQUIRED_PART_SIZE_S3)`. -/
def plannedPartSize (filesize : Nat) (part_size_arg : Option Nat) : Nat :=
  match part_size_arg with
  | none => max (ceilDiv filesize MAX_ALLOWED_PART_COUNT_S3) MIN_REQUIRED_PART_SIZE_S3
  | some 0 => max (ceilDiv filesize MAX_ALLOWED_PART_COUNT_S3) MIN_REQUIRED_PART_SIZE_S3
  | some s => s

/-- `S3MultipartUploader._determine_part_count`: fixes part size and part
count, then performs the two pre-flight limit checks, each of which logs
a fatal diagnostic and calls `exit(1)`. -/
def determinePartCount (filesize : Nat) (part_size_arg : Option Nat) :
    Except RunError ChunkPlan :=
  let ps := plannedPartSize filesize part_size_arg
  let pc := ceilDiv filesize ps
  if ps < MIN_REQUIRED_PART_SIZE_S3 then
    .error (.exitCode 1 "Part size is smaller than minimum")
  else if pc > MAX_ALLOWED_PART_COUNT_S3 then
    .error (.exitCode 1 "Part count required exceeds limit")
  else
    .ok { part_size_in_bytes := ps, part_count := pc }

/-! ## TransferEngine chunk geometry (`_upload_parts` loop body)

Python computes, for 0-based `part_index` with part size `ps` and the
file size recorded at planning time:
`start_offset = min(part_index * ps, filesize - 1)`,
`end_offset = min((part_index + 1) * ps - 1, filesize - 1)`,
`this_part_size = end_offset - start_offset + 1`.
Python integers are signed, so these are embedded over `Int`. -/

def startOffset (ps filesize : Nat) (i : Nat) : Int :=
  min ((i : Int) * ps) ((filesize : Int) - 1)

def endOffset (ps filesize : Nat) (i : Nat) : Int :=
  min (((i : Int) + 1) * ps - 1) ((filesize : Int) - 1)

def thisPartSize (ps filesize : Nat) (i : Nat) : Int :=
  endOffset ps filesize i - startOffset ps filesize i + 1

/-- Number of bytes returned by `file.seek(start); file.read(n)` on a file
whose current size is `actual`: `read` returns at most `n` bytes and
stops at end of file. -/
def readLen (actual : Nat) (start : Int) (n : Nat) : Nat :=
  if start < (actual : Int) then min n (actual - start.toNat) else 0

/-! ## Remote service calls and the response environment -/

/-- One remote request issued through the `boto3` client, recorded in the
order the source issues them. -/
inductive RemoteCall where
  | headObject (bucket key : String)
  | listMultipartUploads (bucket : String)
  | listParts (bucket key uploadId : String) (marker : Option Nat)
  | createMultipartUpload (bucket key : String)
  | uploadPart (bucket key uploadId : String) (partNumber contentLength : Nat)
  | completeMultipartUpload (bucket key uploadId : String) (parts : List (Nat × String))
  | abortMultipartUpload (bucket key uploadId : String)
deriving DecidableEq

/-- Environment of one run: the constructor arguments of
`S3MultipartUploader`, the answers of the interactive prompts, the size
the local file has when it is actually read, and the response the remote
service gives to each request. `partsPagesResp` lists the `list_parts`
responses in the order the pagination loop receives them. -/
structure Env where
  bucket : String
  dest_key : String
  upload_id_arg : String
  filesize : Nat
  part_size_arg : Option Nat
  actual_size : Nat
  headResp : Except S3Error Unit
  listUploadsResp : Except S3Error (List RawUpload)
  partsPagesResp : List (Except S3Error PartsPage)
  createResp : Except S3Error String
  uploadPartResp : Nat → Except S3Error String
  completeResp : Except S3Error Unit
  answerContinue : Bool
  answerAbort : Bool
  answerRestart : Bool

/-- Result of a (partial) run: the remote calls issued in order, the
outcome, and whether the size-mismatch diagnostic of `_finalize_upload`
was logged. -/
structure RunOut where
  calls : List RemoteCall
  result : Except RunError Unit
  warned : Bool
deriving DecidableEq

/-! ## `_is_existing_in_s3`

The only `try/except` in the source: `head_object` is attempted and
`botocore.exceptions.ClientError` (a service error response such as 404)
is converted to `False`; any other exception, in particular a
connection-level transport failure, propagates. -/

def isExistingInS3 (b k : String) (headResp : Except S3Error Unit) :
    List RemoteCall × Except RunError Bool :=
  ([.headObject b k],
    match headResp with
    | .ok _ => .ok true
    | .error (.clientError _) => .ok false
    | .error (.transportError m) => .error (.s3 (.transportError m)))

/-! ## SessionResolver: `check_existing_uploads` and `_load_parts` -/

/-- The pagination loop of `check_existing_uploads` fused with
`_load_parts`: call `list_parts` once with no marker, then keep calling
with the returned `NextPartNumberMarker` while `IsTruncated` is true,
accumulating the `Parts` of every response. The argument list holds the
responses in the order the server produces them; a missing response is
modelled as a transport failure. -/
def loadPartsAll (b k uid : String) (marker : Option Nat) :
    List (Except S3Error PartsPage) → List RemoteCall × Except RunError (List UploadedPart)
  | [] => ([.listParts b k uid marker], .error (.s3 (.transportError "no response")))
  | resp :: rest =>
    match resp with
    | .error e => ([.listParts b k uid marker], .error (.s3 e))
    | .ok page =>
      if page.isTruncated then
        let next := loadPartsAll b k uid page.nextMarker rest
        (.listParts b k uid marker :: next.1, next.2.map (fun more => page.parts ++ more))
      else
        ([.listParts b k uid marker], .ok page.parts)

/-- The `matching` list of `check_existing_uploads`: uploads of the
bucket filtered to the destination key, then, when `args.upload_id` is
non-empty, filtered further to that upload id. -/
def matchingUploads (env : Env) (us : List RawUpload) : List MultipartUploadInProgress :=
  let forKey := (us.filter fun u => u.key = env.dest_key).map fun u =>
    { started_at := u.initiated, upload_id := u.uploadId, initiator := u.initiator,
      parts := ([] : List UploadedPart) }
  if env.upload_id_arg ≠ "" then forKey.filter fun m => m.upload_id = env.upload_id_arg
  else forKey

/-- `S3MultipartUploader.check_existing_uploads`. -/
def checkExistingUploads (env : Env) :
    List RemoteCall × Except RunError (Option MultipartUploadInProgress) :=
  let call : RemoteCall := .listMultipartUploads env.bucket
  match env.listUploadsResp with
  | .error e => ([call], .error (.s3 e))
  | .ok us =>
    match matchingUploads env us with
    | [] =>
      if env.upload_id_arg ≠ "" then
        ([call], .error (.exitCode 1 "No upload found for upload_id"))
      else
        ([call], .ok none)
    | [m] =>
      let loaded := loadPartsAll env.bucket env.dest_key m.upload_id none env.partsPagesResp
      (call :: loaded.1, loaded.2.map fun parts =>
        some { started_at := m.started_at, upload_id := m.upload_id,
               initiator := m.initiator, parts := parts })
    | _ :: _ :: _ =>
      if env.upload_id_arg ≠ "" then
        ([call], .error (.exitCode 1 "Found multiple uploads for this upload_id"))
      else
        ([call], .error (.exitCode 1 "Found multiple uploads in progress"))

/-! ## ConsistencyValidator: the sanity-check loop of `_continue_upload` -/

/-- `sorted(upload.parts, key=lambda part: part.number)`; Python `sorted`
is a stable merge sort. -/
def sortedByNumber (parts : List UploadedPart) : List UploadedPart :=
  parts.mergeSort fun a b => a.number ≤ b.number

/-- The `for index, part in enumerate(existing_parts)` loop: the expected
part number at absolute index `index` is `index + 1`, and every part
except the one at absolute index `len - 1` must have exactly the planned
part size. Each violation logs a diagnostic and calls `exit(3)`. -/
def checkPartsLoop (ps len : Nat) : Nat → List UploadedPart → Except RunError Unit
  | _, [] => .ok ()
  | index, part :: rest =>
    if part.number ≠ index + 1 then
      .error (.exitCode 3 "Incorrect part number")
    else if part.size ≠ ps ∧ index ≠ len - 1 then
      .error (.exitCode 3 "Incorrect part size")
    else checkPartsLoop ps len (index + 1) rest

/-- The validation phase of `_continue_upload`: sort the accepted parts,
run the check loop, and on success return
`start_index = len(existing_parts)` (the transfer then resumes at part
number `start_index + 1`). -/
def validateParts (ps : Nat) (parts : List UploadedPart) : Except RunError Nat :=
  let sorted := sortedByNumber parts
  (checkPartsLoop ps sorted.length 0 sorted).map fun _ => sorted.length

/-! ## TransferEngine: `_upload_parts` -/

/-- The `for part_index in range(start_index, part_count)` loop, given as
fuel the number of remaining indices. For each index: compute the byte
range, read it from the local file (whose size may have changed to
`env.actual_size`), raise on a short or long read, send the part, and
record the acknowledgement `UploadedPart(number, "", size, etag)`. -/
def uploadPartsAux (env : Env) (uid : String) (ps filesize : Nat) :
    Nat → Nat → List RemoteCall × Except RunError (List UploadedPart)
  | _, 0 => ([], .ok [])
  | i, r + 1 =>
    let so := startOffset ps filesize i
    let sz := thisPartSize ps filesize i
    let pn := i + 1
    let got := readLen env.actual_size so ps
    if (got : Int) ≠ sz then
      ([], .error (.shortRead sz.toNat got))
    else
      let call : RemoteCall := .uploadPart env.bucket env.dest_key uid pn sz.toNat
      match env.uploadPartResp pn with
      | .error e => ([call], .error (.s3 e))
      | .ok etag =>
        let next := uploadPartsAux env uid ps filesize (i + 1) r
        (call :: next.1,
          next.2.map fun more => ⟨pn, "", sz.toNat, etag⟩ :: more)

/-- `S3MultipartUploader._upload_parts(start_index, upload_id)`. -/
def uploadPartsRun (env : Env) (plan : ChunkPlan) (startIndex : Nat) (uid : String) :
    List RemoteCall × Except RunError (List UploadedPart) :=
  uploadPartsAux env uid plan.part_size_in_bytes env.filesize startIndex
    (plan.part_count - startIndex)

/-! ## CompletionCoordinator: `_finalize_upload` -/

/-- `S3MultipartUploader._finalize_upload`: sum the part sizes, log the
non-fatal size-mismatch diagnostic when the sum differs from the file
size recorded at planning time, and send `complete_multipart_upload`
listing `(PartNumber, ETag)` of each part, in the order of the `parts`
list, regardless of the mismatch. -/
def finalizeUploadRun (env : Env) (parts : List UploadedPart) (uid : String) : RunOut :=
  let total := (parts.map (fun p => p.size)).sum
  let warned := env.filesize ≠ total
  let call : RemoteCall := .completeMultipartUpload env.bucket env.dest_key uid
    (parts.map fun p => (p.number, p.etag))
  { calls := [call],
    result := match env.completeResp with
      | .ok _ => .ok ()
      | .error e => .error (.s3 e),
    warned := warned }

/-! ## `_continue_upload` and `upload` -/

/-- `S3MultipartUploader._continue_upload`: validate the accepted parts
(exit 3 on violation), upload the remaining parts starting at
`start_index = len(existing_parts)` and finalize with
`existing_parts + new_uploaded_parts`. -/
def continueUploadRun (env : Env) (plan : ChunkPlan)
    (upload : MultipartUploadInProgress) : RunOut :=
  match validateParts plan.part_size_in_bytes upload.parts with
  | .error e => { calls := [], result := .error e, warned := false }
  | .ok startIndex =>
    let existing := sortedByNumber upload.parts
    let up := uploadPartsRun env plan startIndex upload.upload_id
    match up.2 with
    | .error e => { calls := up.1, result := .error e, warned := false }
    | .ok newParts =>
      let fin := finalizeUploadRun env (existing ++ newParts) upload.upload_id
      { calls := up.1 ++ fin.calls, result := fin.result, warned := fin.warned }

/-- `_create_multipart_upload`: `compute_md5` is set to `False` in the
constructor, so no hashing happens and the metadata is empty; the call
returns the new upload id. -/
def createMultipartUploadRun (env : Env) : List RemoteCall × Except RunError String :=
  ([.createMultipartUpload env.bucket env.dest_key],
    match env.createResp with
    | .ok uid => .ok uid
    | .error e => .error (.s3 e))

/-- The fresh-upload tail of `upload`: create a session, upload all parts
from index 0, finalize. -/
def freshUploadRun (env : Env) (plan : ChunkPlan) : RunOut :=
  let cr := createMultipartUploadRun env
  match cr.2 with
  | .error e => { calls := cr.1, result := .error e, warned := false }
  | .ok uid =>
    let up := uploadPartsRun env plan 0 uid
    match up.2 with
    | .error e => { calls := cr.1 ++ up.1, result := .error e, warned := false }
    | .ok parts =>
      let fin := finalizeUploadRun env parts uid
      { calls := cr.1 ++ up.1 ++ fin.calls, result := fin.result, warned := fin.warned }

/-- `S3MultipartUploader.upload` after the plan is fixed: the existence
pre-check, the session discovery, the interactive resume / abort /
restart decision, and the chosen tail. -/
def uploadFlow (env : Env) (plan : ChunkPlan) : RunOut :=
  let ex := isExistingInS3 env.bucket env.dest_key env.headResp
  match ex.2 with
  | .error e => { calls := ex.1, result := .error e, warned := false }
  | .ok true => { calls := ex.1, result := .ok (), warned := false }
  | .ok false =>
    let chk := checkExistingUploads env
    match chk.2 with
    | .error e => { calls := ex.1 ++ chk.1, result := .error e, warned := false }
    | .ok found =>
      match found with
      | none =>
        let fr := freshUploadRun env plan
        { calls := ex.1 ++ chk.1 ++ fr.calls, result := fr.result, warned := fr.warned }
      | some upload =>
        if env.answerContinue then
          let co := continueUploadRun env plan upload
          { calls := ex.1 ++ chk.1 ++ co.calls, result := co.result, warned := co.warned }
        else if env.answerAbort then
          { calls := ex.1 ++ chk.1, result := .error .notImplemented, warned := false }
        else if env.answerRestart then
          let fr := freshUploadRun env plan
          { calls := ex.1 ++ chk.1 ++ fr.calls, result := fr.result, warned := fr.warned }
        else
          { calls := ex.1 ++ chk.1, result := .ok (), warned := false }

/-- A whole `upload` invocation: `__init__` fixes the plan via
`_determine_part_count` (which can `exit(1)` before any remote call),
then `upload()` runs. -/
def runUpload (env : Env) : RunOut :=
  match determinePartCount env.filesize env.part_size_arg with
  | .error e => { calls := [], result := .error e, warned := false }
  | .ok plan => uploadFlow env plan


/-! ## Call classification predicates -/

/-- Calls that touch upload sessions or chunks (everything except the
`head_object` existence probe). -/
def isSessionOrChunkCall : RemoteCall → Bool
  | .headObject _ _ => false
  | _ => true

/-- Calls that mutate remote state. -/
def isMutatingCall : RemoteCall → Bool
  | .createMultipartUpload _ _ => true
  | .uploadPart _ _ _ _ _ => true
  | .completeMultipartUpload _ _ _ _ => true
  | .abortMultipartUpload _ _ _ => true
  | _ => false

/-- `list_parts` chunk-retrieval calls. -/
def isListPartsCall : RemoteCall → Bool
  | .listParts _ _ _ _ => true
  | _ => false

/-! ## Arithmetic lemmas about `ceilDiv` -/

theorem ceilDiv_le_iff {a b c : Nat} (hb : 0 < b) : ceilDiv a b ≤ c ↔ a ≤ c * b := by
  unfold ceilDiv
  rw [Nat.div_le_iff_le_mul_add_pred hb, Nat.mul_comm b c]
  omega

theorem le_ceilDiv_mul {a b : Nat} (hb : 0 < b) : a ≤ ceilDiv a b * b :=
  (ceilDiv_le_iff hb).mp (Nat.le_refl _)

theorem lt_of_lt_ceilDiv {a b i : Nat} (hb : 0 < b) (h : i < ceilDiv a b) : i * b < a := by
  by_contra hc
  push_neg at hc
  exact absurd ((ceilDiv_le_iff hb).mpr hc) (by omega)

theorem ceilDiv_le_of_le {a b c : Nat} (hb : 0 < b) (hbc : b ≤ c) :
    ceilDiv a c ≤ ceilDiv a b := by
  have hc : 0 < c := Nat.lt_of_lt_of_le hb hbc
  rw [ceilDiv_le_iff hc]
  calc a ≤ ceilDiv a b * b := le_ceilDiv_mul hb
    _ ≤ ceilDiv a b * c := Nat.mul_le_mul_left _ hbc

theorem ceilDiv_ceilDiv_le {a n : Nat} (hn : 0 < n) : ceilDiv a (ceilDiv a n) ≤ n := by
  rcases Nat.eq_zero_or_pos a with ha | ha
  · subst ha
    have h1 : ceilDiv 0 n = 0 := by
      unfold ceilDiv
      exact Nat.div_eq_of_lt (by omega)
    rw [h1]
    unfold ceilDiv
    simp
  · have h1 : 0 < ceilDiv a n := by
      by_contra hc
      have h0 : ceilDiv a n ≤ 0 := by omega
      have h2 := (ceilDiv_le_iff hn).mp h0
      omega
    rw [ceilDiv_le_iff h1]
    calc a ≤ ceilDiv a n * n := le_ceilDiv_mul hn
      _ = n * ceilDiv a n := Nat.mul_comm _ _


/-! ## Claim theorems -/

/-- C1 (PartPlanner): for every file size `F`, when no chunk size is
given the planner computes
`chunk_size = max(ceil(F / 10000), 5 MiB)` and
`chunk_count = ceil(F / chunk_size)`, and never fails in that case; it
fails with `ConfigError` (exit 1) exactly when the resulting chunk size
is below 5 MiB or the resulting chunk count exceeds 10000; in
particular `F = 12000000` with no explicit size yields chunk size
5242880 and chunk count 3. -/
theorem partPlanner_spec (F : Nat) (pso : Option Nat) :
    plannedPartSize F none =
      max (ceilDiv F MAX_ALLOWED_PART_COUNT_S3) MIN_REQUIRED_PART_SIZE_S3
    ∧ ((∃ d, determinePartCount F pso = .error (.exitCode 1 d)) ↔
        (plannedPartSize F pso < MIN_REQUIRED_PART_SIZE_S3 ∨
          ceilDiv F (plannedPartSize F pso) > MAX_ALLOWED_PART_COUNT_S3))
    ∧ determinePartCount F none =
        .ok { part_size_in_bytes := plannedPartSize F none,
              part_count := ceilDiv F (plannedPartSize F none) }
    ∧ determinePartCount 12000000 none =
        .ok { part_size_in_bytes := 5242880, part_count := 3 } := by
  refine ⟨rfl, ?_, ?_, by decide⟩
  · simp only [determinePartCount]
    split_ifs with h1 h2
    · constructor
      · intro _
        exact Or.inl h1
      · intro _
        exact ⟨"Part size is smaller than minimum", rfl⟩
    · constructor
      · intro _
        exact Or.inr h2
      · intro _
        exact ⟨"Part count required exceeds limit", rfl⟩
    · constructor
      · intro h
        rcases h with ⟨d, hd⟩
        simp at hd
      · intro h
        rcases h with h | h
        · exact absurd h h1
        · exact absurd h h2
  · have hmin : MIN_REQUIRED_PART_SIZE_S3 ≤ plannedPartSize F none := by
      simp only [plannedPartSize]
      exact le_max_right _ _
    have hcount : ceilDiv F (plannedPartSize F none) ≤ MAX_ALLOWED_PART_COUNT_S3 := by
      rcases Nat.eq_zero_or_pos F with hF | hF
    
      · subst hF
        exact (ceilDiv_le_iff (by decide)).mpr (Nat.zero_le _)
      · have hq : 0 < ceilDiv F MAX_ALLOWED_PART_COUNT_S3 := by
          by_contra hc
          have h0 : ceilDiv F MAX_ALLOWED_PART_COUNT_S3 ≤ 0 := by omega
          have h2 := (ceilDiv_le_iff (b := MAX_ALLOWED_PART_COUNT_S3) (by decide)).mp h0
          omega
        have hle : ceilDiv F MAX_ALLOWED_PART_COUNT_S3 ≤ plannedPartSize F none := by
          simp only [plannedPartSize]
          exact le_max_left _ _
        calc ceilDiv F (plannedPartSize F none)
            ≤ ceilDiv F (ceilDiv F MAX_ALLOWED_PART_COUNT_S3) := ceilDiv_le_of_le hq hle
          _ ≤ MAX_ALLOWED_PART_COUNT_S3 := ceilDiv_ceilDiv_le (by decide)
    have h1 : ¬ plannedPartSize F none < MIN_REQUIRED_PART_SIZE_S3 := by omega
    have h2 : ¬ ceilDiv F (plannedPartSize F none) > MAX_ALLOWED_PART_COUNT_S3 := by omega
    simp [determinePartCount, h1, h2]

/-- C3 (TransferEngine chunk geometry): for every file size `F > 0` and
valid plan (`ps > 0`, `count = ceil(F / ps)`), the byte ranges of chunks
`1..count` satisfy `start = index * ps` and
`end = min((index + 1) * ps, F) - 1`, they partition `[0, F)` exactly
(first range starts at 0, last ends at `F - 1`, ranges are contiguous
and non-overlapping, sizes sum to `F`), and every chunk except the last
has size exactly `ps`. -/
theorem chunkGeometry_spec (F ps count : Nat) (hF : 0 < F) (hps : 0 < ps)
    (hcount : count = ceilDiv F ps) :
    (∀ i, i < count →
        startOffset ps F i = (i : Int) * ps ∧
        endOffset ps F i = min (((i : Int) + 1) * ps) (F : Int) - 1) ∧
    startOffset ps F 0 = 0 ∧
    endOffset ps F (count - 1) = (F : Int) - 1 ∧
    (∀ i, i + 1 < count → startOffset ps F (i + 1) = endOffset ps F i + 1) ∧
    (∀ i j, i < j → j < count → endOffset ps F i < startOffset ps F j) ∧
    (∑ i ∈ Finset.range count, thisPartSize ps F i) = (F : Int) ∧
    (∀ i, i + 1 < count → thisPartSize ps F i = (ps : Int)) := by
  have hlt : ∀ i : Nat, i < count → ((i : Int) * ps < (F : Int)) := by
    intro i hi
    have h := lt_of_lt_ceilDiv hps (by omega : i < ceilDiv F ps)
    have h2 : ((i * ps : Nat) : Int) < (F : Int) := by exact_mod_cast h
    rw [Nat.cast_mul] at h2
    exact h2
  have hge : (F : Int) ≤ (count : Int) * ps := by
    have h := le_ceilDiv_mul (a := F) hps
    have h2 : ((F : Nat) : Int) ≤ ((ceilDiv F ps * ps : Nat) : Int) := by exact_mod_cast h
    rw [Nat.cast_mul] at h2
    rw [hcount]
    exact h2
  have hc1 : 1 ≤ count := by
    by_contra hc
    have h0 : count = 0 := by omega
    have := hge
    rw [h0] at this
    simp at this
    omega
  have hstart : ∀ i : Nat, i < count → startOffset ps F i = (i : Int) * ps := by
    intro i hi
    unfold startOffset
    refine min_eq_left ?_
    have hx := Int.lt_iff_add_one_le.mp (hlt i hi)
    linarith
  have hend : ∀ i : Nat, endOffset ps F i = min (((i : Int) + 1) * ps) (F : Int) - 1 := by
    intro i
    unfold endOffset
    rw [← min_sub_sub_right]
  have hsize : ∀ i : Nat, i < count →
      thisPartSize ps F i = min (((i : Int) + 1) * ps) (F : Int) - (i : Int) * ps := by
    intro i hi
    unfold thisPartSize
    rw [hend, hstart i hi]
    ring
  refine ⟨fun i hi => ⟨hstart i hi, hend i⟩, ?_, ?_, ?_, ?_, ?_, ?_⟩
  · rw [hstart 0 (by omega)]
    simp
  · rw [hend]
    have hcast : ((count - 1 : Nat) : Int) + 1 = (count : Int) := by
      push_cast [hc1]
      ring
    rw [hcast, min_eq_right hge]
  · intro i hi
    rw [hstart (i + 1) hi, hend]
    have hx := hlt (i + 1) hi
    have hmin : min (((i : Int) + 1) * ps) (F : Int) = ((i : Int) + 1) * ps := by
      refine min_eq_left ?_
      push_cast at hx
      linarith
    rw [hmin]
    push_cast
    ring
  · intro i j hij hj
    rw [hstart j hj, hend]
    have hij2 : ((i : Int) + 1) * ps ≤ (j : Int) * ps := by
      have : ((i : Int) + 1) ≤ (j : Int) := by exact_mod_cast hij
      have hps2 : (0 : Int) ≤ (ps : Int) := by positivity
      nlinarith
    have h1 : min (((i : Int) + 1) * ps) (F : Int) - 1 ≤ ((i : Int) + 1) * ps - 1 := by
      have := min_le_left (((i : Int) + 1) * ps) (F : Int)
      linarith
    have hps1 : (1 : Int) ≤ (ps : Int) := by exact_mod_cast hps
    linarith
  · have hsum : ∀ n : Nat, n ≤ count →
        (∑ i ∈ Finset.range n, thisPartSize ps F i) = min ((n : Int) * ps) (F : Int) := by
      intro n
      induction n with
      | zero =>
        intro _
        rw [Finset.sum_range_zero]
        rw [show ((0 : Nat) : Int) * ps = 0 by simp]
        rw [min_eq_left (by positivity)]
      | succ m ih =>
        intro hm
        rw [Finset.sum_range_succ, ih (by omega), hsize m (by omega)]
        rw [min_eq_left (le_of_lt (hlt m (by omega)))]
        push_cast
        ring
    rw [hsum count (Nat.le_refl _), min_eq_right hge]
  · intro i hi
    rw [hsize i (by omega)]
    have hx := hlt (i + 1) hi
    push_cast at hx
    rw [min_eq_left (by linarith)]
    ring

theorem checkPartsLoop_ok_iff (ps : Nat) (L : List UploadedPart) :
    ∀ (k len : Nat), len = k + L.length →
      (checkPartsLoop ps len k L = .ok () ↔
        (L.map (fun p => p.number) = List.range' (k + 1) L.length ∧
          ∀ i p, k + i + 1 < len → L.get? i = some p → p.size = ps)) := by
  induction L with
  | nil =>
    intro k len hlen
    simp [checkPartsLoop]
  | cons part rest ih =>
    intro k len hlen
    rw [checkPartsLoop]
    by_cases h1 : part.number = k + 1
    · rw [if_neg (by simp [h1])]
      by_cases h2 : part.size ≠ ps ∧ k ≠ len - 1
      · rw [if_pos h2]
        constructor
        · intro h
          exact absurd h (by simp)
        · rintro ⟨hmap, hsz⟩
          exfalso
          have hrest : rest.length ≠ 0 := by
            simp only [List.length_cons] at hlen
            omega
          have h0 : (part :: rest).get? 0 = some part := rfl
          have hps : part.size = ps := by
            refine hsz 0 part ?_ h0
            simp only [List.length_cons] at hlen
            omega
          exact h2.1 hps
      · rw [if_neg h2]
        rw [ih (k + 1) len (by simp only [List.length_cons] at hlen; omega)]
        push_neg at h2
        constructor
        · rintro ⟨hmap, hsz⟩
          constructor
          · simp only [List.map_cons, List.length_cons, List.range'_succ]
            simp [h1, hmap]
          · intro i p hcond hget
            cases i with
            | zero =>
              have hp : p = part := by
                simp only [List.get?_cons_zero] at hget
                exact (Option.some.injEq _ _ ▸ hget).symm
              subst hp
              by_cases hps : p.size = ps
              · exact hps
              · exfalso
                have hk := h2 hps
                simp only [List.length_cons] at hlen
                omega
            | succ j =>
              simp only [List.get?_cons_succ] at hget
              exact hsz j p (by omega) hget
        · rintro ⟨hmap, hsz⟩
          constructor
          · simp only [List.map_cons, List.length_cons, List.range'_succ] at hmap
            simp at hmap
            exact hmap.2
          · intro j p hcond hget
            refine hsz (j + 1) p (by omega) ?_
            simpa using hget
    · rw [if_pos (by simp [h1])]
      constructor
      · intro h
        exact absurd h (by simp)
      · rintro ⟨hmap, _⟩
        exfalso
        simp only [List.map_cons, List.length_cons, List.range'_succ] at hmap
        simp at hmap
        exact h1 hmap.1

theorem checkPartsLoop_error_shape (ps : Nat) (L : List UploadedPart) :
    ∀ (k len : Nat) (e : RunError), checkPartsLoop ps len k L = .error e →
      ∃ d, e = .exitCode 3 d := by
  induction L with
  | nil =>
    intro k len e h
    simp [checkPartsLoop] at h
  | cons part rest ih =>
    intro k len e h
    rw [checkPartsLoop] at h
    by_cases h1 : part.number ≠ k + 1
    · rw [if_pos h1] at h
      exact ⟨"Incorrect part number", by cases h; rfl⟩
    · rw [if_neg h1] at h
      by_cases h2 : part.size ≠ ps ∧ k ≠ len - 1
      · rw [if_pos h2] at h
        exact ⟨"Incorrect part size", by cases h; rfl⟩
      · rw [if_neg h2] at h
        exact ih (k + 1) len e h

theorem uploadPartsAux_partNumber_ge (env : Env) (uid : String) (ps F : Nat) :
    ∀ (r i : Nat) (b2 k2 u2 : String) (pn len : Nat),
      RemoteCall.uploadPart b2 k2 u2 pn len ∈ (uploadPartsAux env uid ps F i r).1 →
      i + 1 ≤ pn := by
  intro r
  induction r with
  | zero =>
    intro i b2 k2 u2 pn len h
    simp [uploadPartsAux] at h
  | succ r ih =>
    intro i b2 k2 u2 pn len h
    rw [uploadPartsAux] at h
    by_cases hshort : ((readLen env.actual_size (startOffset ps F i) ps : Int) ≠ thisPartSize ps F i)
    · rw [if_pos hshort] at h
      simp at h
    · rw [if_neg hshort] at h
      cases hresp : env.uploadPartResp (i + 1) with
      | error e =>
        rw [hresp] at h
        simp at h
        rcases h with ⟨_, _, _, hpn, _⟩
        omega
      | ok etag =>
        rw [hresp] at h
        simp only [List.mem_cons] at h
        rcases h with heq | hmem
        · cases heq
          omega
        · have := ih (i + 1) b2 k2 u2 pn len hmem
          omega

theorem uploadPartsAux_error_shape (env : Env) (uid : String) (ps F : Nat) :
    ∀ (r i : Nat) (e : RunError), (uploadPartsAux env uid ps F i r).2 = .error e →
      (∃ x y, e = .shortRead x y) ∨ (∃ s, e = .s3 s) := by
  intro r
  induction r with
  | zero =>
    intro i e h
    simp [uploadPartsAux] at h
  | succ r ih =>
    intro i e h
    rw [uploadPartsAux] at h
    by_cases hshort : ((readLen env.actual_size (startOffset ps F i) ps : Int) ≠ thisPartSize ps F i)
    · rw [if_pos hshort] at h
      simp at h
      exact Or.inl ⟨_, _, h.symm⟩
    · rw [if_neg hshort] at h
      cases hresp : env.uploadPartResp (i + 1) with
      | error e2 =>
        rw [hresp] at h
        simp at h
        exact Or.inr ⟨e2, h.symm⟩
      | ok etag =>
        rw [hresp] at h
        simp only at h
        cases hnext : (uploadPartsAux env uid ps F (i + 1) r).2 with
        | error e3 =>
          rw [hnext] at h
          simp only [Except.map] at h
          cases h
          exact ih (i + 1) _ hnext
        | ok more =>
          rw [hnext] at h
          simp [Except.map] at h

/-- C2 (ConsistencyValidator): for every sequence of accepted chunks and
plan chunk size, after sorting by chunk number validation succeeds (with
validated count `N = parts.length`) if and only if the sorted chunk
numbers are exactly `1..N` and every chunk except the last of the
sequence has size exactly the plan chunk size; on any violation
`_continue_upload` fails with `ConsistencyError` (exit code 3); and the
resumed transfer only ever sends chunk numbers `≥ N + 1` (chunks
`1..N` are not re-sent). -/
theorem consistencyValidator_spec (ps : Nat) (parts : List UploadedPart) :
    (validateParts ps parts = .ok parts.length ↔
      ((sortedByNumber parts).map (fun p => p.number) = List.range' 1 parts.length ∧
        ∀ i p, i + 1 < parts.length → (sortedByNumber parts).get? i = some p → p.size = ps)) ∧
    (validateParts ps parts ≠ .ok parts.length →
      ∃ d, validateParts ps parts = .error (.exitCode 3 d)) ∧
    (∀ env plan upload, plan.part_size_in_bytes = ps → upload.parts = parts →
      (((∃ d, (continueUploadRun env plan upload).result = .error (.exitCode 3 d)) ↔
          validateParts ps parts ≠ .ok parts.length) ∧
        (∀ b2 k2 u2 pn len,
          RemoteCall.uploadPart b2 k2 u2 pn len ∈ (continueUploadRun env plan upload).calls →
          parts.length + 1 ≤ pn))) := by
  have hlen : (sortedByNumber parts).length = parts.length := by
    simp [sortedByNumber]
  have hiff : validateParts ps parts = .ok parts.length ↔
      checkPartsLoop ps (sortedByNumber parts).length 0 (sortedByNumber parts) = .ok () := by
    simp only [validateParts]
    cases hc : checkPartsLoop ps (sortedByNumber parts).length 0 (sortedByNumber parts) with
    | ok u =>
      cases u
      simp [Except.map, hlen]
    | error e =>
      simp [Except.map]
  have h2 := checkPartsLoop_ok_iff ps (sortedByNumber parts) 0 (sortedByNumber parts).length
    (by omega)
  rw [hlen] at h2
  rw [hlen] at hiff
  simp only [Nat.zero_add] at h2
  have hshape : ∀ e, validateParts ps parts = .error e → ∃ d, e = .exitCode 3 d := by
    intro e he
    simp only [validateParts] at he
    cases hc : checkPartsLoop ps (sortedByNumber parts).length 0 (sortedByNumber parts) with
    | ok u =>
      rw [hc] at he
      simp [Except.map] at he
    | error e2 =>
      rw [hc] at he
      simp only [Except.map] at he
      cases he
      exact checkPartsLoop_error_shape ps (sortedByNumber parts) 0 _ _ hc
  have hok_val : ∀ n, validateParts ps parts = .ok n → n = parts.length := by
    intro n hn
    simp only [validateParts] at hn
    cases hc : checkPartsLoop ps (sortedByNumber parts).length 0 (sortedByNumber parts) with
    | ok u =>
      rw [hc] at hn
      simp only [Except.map] at hn
      cases hn
      exact hlen
    | error e2 =>
      rw [hc] at hn
      simp [Except.map] at hn
  refine ⟨hiff.trans h2, ?_, ?_⟩
  · intro hne
    cases hv : validateParts ps parts with
    | ok n =>
      exact absurd (hok_val n hv ▸ hv) hne
    | error e =>
      rcases hshape e hv with ⟨d, hd⟩
      exact ⟨d, by rw [hd]⟩
  · intro env plan upload hps hparts
    subst hps
    subst hparts
    cases hv : validateParts plan.part_size_in_bytes upload.parts with
    | error e =>
      rcases hshape e hv with ⟨d, hd⟩
      constructor
      · constructor
        · intro _
          simp
        · intro _
          refine ⟨d, ?_⟩
          simp only [continueUploadRun, hv, hd]
      · intro b2 k2 u2 pn len hmem
        simp only [continueUploadRun, hv] at hmem
        simp at hmem
    | ok startIndex =>
      have hsi : startIndex = upload.parts.length := hok_val startIndex hv
      subst hsi
      constructor
      · constructor
        · rintro ⟨d, hd⟩
          exfalso
          simp only [continueUploadRun, hv] at hd
          cases hup : (uploadPartsRun env plan upload.parts.length upload.upload_id).2 with
          | error e =>
            rw [hup] at hd
            simp only at hd
            rcases uploadPartsAux_error_shape env upload.upload_id
                plan.part_size_in_bytes env.filesize _ _ e hup with ⟨x, y, hxy⟩ | ⟨s, hs⟩
            · rw [hxy] at hd
              cases hd
            · rw [hs] at hd
              cases hd
          | ok newParts =>
            rw [hup] at hd
            simp only [finalizeUploadRun] at hd
            cases hcr : env.completeResp with
            | ok u =>
              rw [hcr] at hd
              cases hd
            | error e2 =>
              rw [hcr] at hd
              cases hd
        · intro hne
          exact absurd rfl hne
      · intro b2 k2 u2 pn len hmem
        simp only [continueUploadRun, hv] at hmem
        cases hup : (uploadPartsRun env plan upload.parts.length upload.upload_id).2 with
        | error e =>
          rw [hup] at hmem
          simp only at hmem
          exact uploadPartsAux_partNumber_ge env upload.upload_id
            plan.part_size_in_bytes env.filesize _ _ b2 k2 u2 pn len hmem
        | ok newParts =>
          rw [hup] at hmem
          simp only [finalizeUploadRun, List.mem_append] at hmem
          rcases hmem with hmem | hmem
          · exact uploadPartsAux_partNumber_ge env upload.upload_id
              plan.part_size_in_bytes env.filesize _ _ b2 k2 u2 pn len hmem
          · simp at hmem

theorem loadPartsAll_pages_ok (b k uid : String) (pages : List PartsPage) :
    pages ≠ [] →
    (∀ i (h : i < pages.length),
      ((pages.get ⟨i, h⟩).isTruncated = true ↔ i + 1 < pages.length)) →
    ∀ marker,
      (loadPartsAll b k uid marker (pages.map Except.ok)).2 =
        .ok ((pages.map (fun p => p.parts)).flatten) ∧
      (loadPartsAll b k uid marker (pages.map Except.ok)).1.length = pages.length := by
  induction pages with
  | nil =>
    intro h
    exact absurd rfl h
  | cons p rest ih =>
    intro _ hflags marker
    cases rest with
    | nil =>
      have hfalse : p.isTruncated = false := by
        have h0 := hflags 0 (by simp)
        simp at h0
        exact h0
      rw [List.map_cons, List.map_nil, loadPartsAll]
      simp [hfalse]
    | cons q rest2 =>
      have htrue : p.isTruncated = true := by
        have h0 := hflags 0 (by simp)
        simp at h0
        exact h0
      have hrestflags : ∀ i (h : i < (q :: rest2).length),
          (((q :: rest2).get ⟨i, h⟩).isTruncated = true ↔ i + 1 < (q :: rest2).length) := by
        intro i h
        have h1 := hflags (i + 1) (by simp only [List.length_cons] at h ⊢; omega)
        simpa using h1
      have ihres := ih (by simp) hrestflags p.nextMarker
      rw [List.map_cons, loadPartsAll]
      simp only [htrue, if_true]
      refine ⟨?_, ?_⟩
      · rw [ihres.1]
        simp [Except.map]
      · simp only [List.length_cons]
        rw [ihres.2]
        simp

/-- C4 (Pagination merging): for every split of the accepted chunks of a
session across any number of pages — each page carrying at most 1000
chunks, a continuation marker and a truncation flag that is true exactly
on the non-final pages, pages and chunks in ascending chunk-number
order — the accumulation loop of `check_existing_uploads` (which repeats
`list_parts` until the truncation flag is false) returns exactly the
full ordered chunk sequence a single unpaginated listing would contain,
issuing one `list_parts` call per page. -/
theorem paginationMerging_spec (b k uid : String) (allParts : List UploadedPart)
    (pages : List PartsPage)
    (hne : pages ≠ [])
    (hjoin : (pages.map (fun p => p.parts)).flatten = allParts)
    (_hpagesize : ∀ p ∈ pages, p.parts.length ≤ 1000)
    (_hasc : List.Chain' (fun a b => a.number < b.number) allParts)
    (hflags : ∀ i (h : i < pages.length),
      ((pages.get ⟨i, h⟩).isTruncated = true ↔ i + 1 < pages.length)) :
    (loadPartsAll b k uid none (pages.map Except.ok)).2 = .ok allParts ∧
    (loadPartsAll b k uid none (pages.map Except.ok)).1.length = pages.length := by
  have h := loadPartsAll_pages_ok b k uid pages hne hflags none
  rw [hjoin] at h
  exact h

/-- Witness for `paginationMerging_spec`: two pages of one chunk each,
reassembled into the two-chunk sequence. -/
theorem paginationMerging_spec_witness :
    (loadPartsAll "b" "k" "u" none
        ([⟨[⟨1, "", 5242880, "e1"⟩], some 1, true⟩,
          ⟨[⟨2, "", 100, "e2"⟩], none, false⟩].map Except.ok)).2 =
      .ok [⟨1, "", 5242880, "e1"⟩, ⟨2, "", 100, "e2"⟩] ∧
    (loadPartsAll "b" "k" "u" none
        ([⟨[⟨1, "", 5242880, "e1"⟩], some 1, true⟩,
          ⟨[⟨2, "", 100, "e2"⟩], none, false⟩].map Except.ok)).1.length = 2 := by
  have h := paginationMerging_spec "b" "k" "u"
    [⟨1, "", 5242880, "e1"⟩, ⟨2, "", 100, "e2"⟩]
    [⟨[⟨1, "", 5242880, "e1"⟩], some 1, true⟩, ⟨[⟨2, "", 100, "e2"⟩], none, false⟩]
    (by simp) (by simp) (by decide) (by simp) (by decide)
  simpa using h

theorem loadPartsAll_calls_head (b k uid : String) (marker : Option Nat)
    (resps : List (Except S3Error PartsPage)) :
    ∃ rest, (loadPartsAll b k uid marker resps).1 = .listParts b k uid marker :: rest := by
  cases resps with
  | nil => exact ⟨[], rfl⟩
  | cons r rest =>
    cases r with
    | error e => exact ⟨[], rfl⟩
    | ok page =>
      rw [loadPartsAll]
      by_cases h : page.isTruncated
      · simp only [h, if_true]
        exact ⟨_, rfl⟩
      · simp only [h, if_false]
        exact ⟨[], rfl⟩

/-- C5 (SessionResolver disambiguation): with the remote listing filtered
to the destination key (and further to the explicit id when one is
given): zero matches with an explicit session id fails with
`SessionNotFoundError` (exit 1); zero matches without an id returns
none, meaning a fresh upload; more than one match fails with
`AmbiguousSessionError` (exit 1); and a `list_parts` chunk-retrieval
call is made exactly when there is one single match. -/
theorem sessionDisambiguation_spec (env : Env) (us : List RawUpload)
    (h : env.listUploadsResp = .ok us) :
    (matchingUploads env us = [] → env.upload_id_arg ≠ "" →
      (checkExistingUploads env).2 = .error (.exitCode 1 "No upload found for upload_id")) ∧
    (matchingUploads env us = [] → env.upload_id_arg = "" →
      (checkExistingUploads env).2 = .ok none) ∧
    (1 < (matchingUploads env us).length →
      ∃ d, (checkExistingUploads env).2 = .error (.exitCode 1 d)) ∧
    ((∃ c ∈ (checkExistingUploads env).1, isListPartsCall c = true) ↔
      (matchingUploads env us).length = 1) := by
  refine ⟨?_, ?_, ?_, ?_⟩
  · intro hm hid
    simp only [checkExistingUploads, h, hm, hid, if_true]
    simp [hid]
  · intro hm hid
    simp only [checkExistingUploads, h, hm]
    simp [hid]
  · intro hlen
    cases hm : matchingUploads env us with
    | nil =>
      rw [hm] at hlen
      simp at hlen
    | cons m rest =>
      cases rest with
      | nil =>
        rw [hm] at hlen
        simp at hlen
      | cons m2 rest2 =>
        simp only [checkExistingUploads, h, hm]
        by_cases hid : env.upload_id_arg ≠ ""
        · simp only [if_pos hid]
          exact ⟨"Found multiple uploads for this upload_id", rfl⟩
        · simp only [hid, if_false]
          exact ⟨"Found multiple uploads in progress", rfl⟩
  · cases hm : matchingUploads env us with
    | nil =>
      simp only [checkExistingUploads, h, hm]
      constructor
      · rintro ⟨c, hc, hlp⟩
        by_cases hid : env.upload_id_arg ≠ ""
        · simp only [if_pos hid] at hc
          simp at hc
          subst hc
          simp [isListPartsCall] at hlp
        · simp only [hid, if_false] at hc
          simp at hc
          subst hc
          simp [isListPartsCall] at hlp
      · intro hlen
        simp at hlen
    | cons m rest =>
      cases rest with
      | nil =>
        simp only [checkExistingUploads, h, hm]
        constructor
        · intro _
          simp
        · intro _
          rcases loadPartsAll_calls_head env.bucket env.dest_key m.upload_id none
            env.partsPagesResp with ⟨rest2, hrest⟩
          refine ⟨.listParts env.bucket env.dest_key m.upload_id none, ?_, rfl⟩
          simp [hrest]
      | cons m2 rest2 =>
        simp only [checkExistingUploads, h, hm]
        constructor
        · rintro ⟨c, hc, hlp⟩
          by_cases hid : env.upload_id_arg ≠ ""
          · simp only [if_pos hid] at hc
            simp at hc
            subst hc
            simp [isListPartsCall] at hlp
          · simp only [hid, if_false] at hc
            simp at hc
            subst hc
            simp [isListPartsCall] at hlp
        · intro hlen
          simp at hlen

theorem map_succ_range' : ∀ (s n : Nat),
    (List.range' s n).map (fun j => j + 1) = List.range' (s + 1) n := by
  intro s n
  induction n generalizing s with
  | zero => simp
  | succ m ih =>
    rw [List.range'_succ, List.range'_succ, List.map_cons, ih]

theorem uploadPartsAux_clean (env : Env) (uid : String) (ps F : Nat) :
    ∀ (r i : Nat),
      (∀ j, i ≤ j → j < i + r →
        ((readLen env.actual_size (startOffset ps F j) ps : Int) = thisPartSize ps F j ∧
          ∃ t, env.uploadPartResp (j + 1) = .ok t)) →
      uploadPartsAux env uid ps F i r =
        ((List.range' i r).map (fun j =>
            RemoteCall.uploadPart env.bucket env.dest_key uid (j + 1)
              (thisPartSize ps F j).toNat),
          .ok ((List.range' i r).map (fun j =>
            ⟨j + 1, "", (thisPartSize ps F j).toNat,
              ((env.uploadPartResp (j + 1)).toOption.getD "")⟩))) := by
  intro r
  induction r with
  | zero =>
    intro i _
    simp [uploadPartsAux]
  | succ r ihr =>
    intro i hok
    rcases hok i (Nat.le_refl i) (by omega) with ⟨hread, t, ht⟩
    have hnext := ihr (i + 1) (fun j h1 h2 => hok j (by omega) (by omega))
    rw [uploadPartsAux]
    rw [if_neg (fun hc => hc hread)]
    rw [ht]
    simp only []
    rw [hnext]
    rw [List.range'_succ]
    simp [Except.map, ht, Except.toOption]

theorem map_fst_pair_number (L : List UploadedPart) :
    (L.map (fun p => (p.number, p.etag))).map Prod.fst = L.map (fun p => p.number) := by
  induction L with
  | nil => rfl
  | cons a l ih => simp [ih]

theorem map_number_mkpart (f : Nat → String) (sz : Nat → Nat) : ∀ (l : List Nat),
    (l.map (fun j => (⟨j + 1, "", sz j, f j⟩ : UploadedPart))).map (fun p => p.number) =
      l.map (fun j => j + 1) := by
  intro l
  induction l with
  | nil => rfl
  | cons a l ih => simp [ih]

/-- C6 (CompletionCoordinator): for every chunk-acknowledgement sequence
the size-mismatch diagnostic is emitted exactly when the summed chunk
sizes differ from the recorded file size, and the finalize request —
listing each chunk number and remote tag — is sent regardless (a
mismatch never aborts the finalize); for a clean fresh upload the
finalize request lists part numbers exactly 1..part_count, and for a
clean resumed upload exactly 1..M for some M — ascending and
contiguous from 1 in both cases. -/
theorem completionCoordinator_spec :
    (∀ env parts uid,
      ((finalizeUploadRun env parts uid).warned = true ↔
        env.filesize ≠ (parts.map (fun p => p.size)).sum) ∧
      (finalizeUploadRun env parts uid).calls =
        [.completeMultipartUpload env.bucket env.dest_key uid
          (parts.map fun p => (p.number, p.etag))] ∧
      (env.completeResp = .ok () → (finalizeUploadRun env parts uid).result = .ok ())) ∧
    (∀ env plan uid,
      env.createResp = .ok uid →
      (∀ j, j < plan.part_count →
        ((readLen env.actual_size (startOffset plan.part_size_in_bytes env.filesize j)
            plan.part_size_in_bytes : Int) =
          thisPartSize plan.part_size_in_bytes env.filesize j ∧
          ∃ t, env.uploadPartResp (j + 1) = .ok t)) →
      ∃ pl, RemoteCall.completeMultipartUpload env.bucket env.dest_key uid pl ∈
          (freshUploadRun env plan).calls ∧
        pl.map Prod.fst = List.range' 1 plan.part_count) ∧
    (∀ env plan upload,
      validateParts plan.part_size_in_bytes upload.parts = .ok upload.parts.length →
      (∀ j, upload.parts.length ≤ j → j < upload.parts.length +
          (plan.part_count - upload.parts.length) →
        ((readLen env.actual_size (startOffset plan.part_size_in_bytes env.filesize j)
            plan.part_size_in_bytes : Int) =
          thisPartSize plan.part_size_in_bytes env.filesize j ∧
          ∃ t, env.uploadPartResp (j + 1) = .ok t)) →
      ∃ M pl, RemoteCall.completeMultipartUpload env.bucket env.dest_key upload.upload_id pl ∈
          (continueUploadRun env plan upload).calls ∧
        pl.map Prod.fst = List.range' 1 M) := by
  refine ⟨?_, ?_, ?_⟩
  · intro env parts uid
    refine ⟨?_, rfl, ?_⟩
    · simp [finalizeUploadRun]
    · intro h
      simp [finalizeUploadRun, h]
  · intro env plan uid hcr hclean
    have hup := uploadPartsAux_clean env uid plan.part_size_in_bytes env.filesize
      (plan.part_count - 0) 0 (fun j h1 h2 => hclean j (by omega))
    refine ⟨List.map (fun p => (p.number, p.etag))
      (List.map (fun j =>
        (⟨j + 1, "", (thisPartSize plan.part_size_in_bytes env.filesize j).toNat,
          ((env.uploadPartResp (j + 1)).toOption.getD "")⟩ : UploadedPart))
        (List.range' 0 (plan.part_count - 0))), ?_, ?_⟩
    · simp only [freshUploadRun, createMultipartUploadRun, hcr]
      simp only [uploadPartsRun, hup]
      simp [finalizeUploadRun]
    · rw [map_fst_pair_number, map_number_mkpart, map_succ_range']
      simp
  · intro env plan upload hval hclean
    have hlen : (sortedByNumber upload.parts).length = upload.parts.length := by
      simp [sortedByNumber]
    have hloop : checkPartsLoop plan.part_size_in_bytes (sortedByNumber upload.parts).length 0
        (sortedByNumber upload.parts) = .ok () := by
      simp only [validateParts] at hval
      cases hc : checkPartsLoop plan.part_size_in_bytes (sortedByNumber upload.parts).length 0
          (sortedByNumber upload.parts) with
      | ok u => cases u; rfl
      | error e =>
        rw [hc] at hval
        simp [Except.map] at hval
    have hnum := ((checkPartsLoop_ok_iff plan.part_size_in_bytes (sortedByNumber upload.parts)
      0 (sortedByNumber upload.parts).length (by omega)).mp hloop).1
    simp only [Nat.zero_add, hlen] at hnum
    have hup := uploadPartsAux_clean env upload.upload_id plan.part_size_in_bytes env.filesize
      (plan.part_count - upload.parts.length) upload.parts.length
      (fun j h1 h2 => hclean j h1 h2)
    refine ⟨upload.parts.length + (plan.part_count - upload.parts.length),
      List.map (fun p => (p.number, p.etag))
        (sortedByNumber upload.parts ++
          List.map (fun j =>
            (⟨j + 1, "", (thisPartSize plan.part_size_in_bytes env.filesize j).toNat,
              ((env.uploadPartResp (j + 1)).toOption.getD "")⟩ : UploadedPart))
            (List.range' upload.parts.length (plan.part_count - upload.parts.length))),
      ?_, ?_⟩
    · simp only [continueUploadRun, hval]
      simp only [uploadPartsRun, hup]
      simp [finalizeUploadRun]
    · rw [map_fst_pair_number, List.map_append, map_number_mkpart, map_succ_range', hnum]
      rw [show upload.parts.length + 1 = 1 + upload.parts.length by omega]
      rw [List.range'_append_1]
      rw [show (plan.part_count - upload.parts.length) + upload.parts.length =
        upload.parts.length + (plan.part_count - upload.parts.length) by omega]

/-- C7 (Existence pre-check): whenever planning succeeded and
`head_object` reports that the destination object already exists,
`upload` returns immediately: the only remote call of the whole run is
the `head_object` probe — no session listing, session creation, chunk
send or finalize call is made and no remote state is mutated. -/
theorem existencePrecheck_spec (env : Env) (plan : ChunkPlan)
    (hhead : env.headResp = .ok ())
    (hplan : determinePartCount env.filesize env.part_size_arg = .ok plan) :
    runUpload env = { calls := [.headObject env.bucket env.dest_key],
                      result := .ok (), warned := false } ∧
    (∀ c ∈ (runUpload env).calls, isSessionOrChunkCall c = false) ∧
    (∀ c ∈ (runUpload env).calls, isMutatingCall c = false) := by
  have h1 : runUpload env =
      (⟨[.headObject env.bucket env.dest_key], .ok (), false⟩ : RunOut) := by
    simp only [runUpload, hplan]
    simp only [uploadFlow, isExistingInS3, hhead]
  refine ⟨h1, ?_, ?_⟩
  · rw [h1]
    intro c hc
    simp at hc
    subst hc
    rfl
  · rw [h1]
    intro c hc
    simp at hc
    subst hc
    rfl

/-- Witness for `existencePrecheck_spec` at a concrete environment whose
destination object already exists. -/
theorem existencePrecheck_spec_witness :
    runUpload (⟨"b", "k", "", 0, none, 0, .ok (), .ok [], [], .ok "U",
        fun _ => .ok "t", .ok (), false, false, false⟩ : Env) =
      { calls := [.headObject "b" "k"], result := .ok (), warned := false } ∧
    (∀ c ∈ (runUpload (⟨"b", "k", "", 0, none, 0, .ok (), .ok [], [], .ok "U",
        fun _ => .ok "t", .ok (), false, false, false⟩ : Env)).calls,
      isSessionOrChunkCall c = false) ∧
    (∀ c ∈ (runUpload (⟨"b", "k", "", 0, none, 0, .ok (), .ok [], [], .ok "U",
        fun _ => .ok "t", .ok (), false, false, false⟩ : Env)).calls,
      isMutatingCall c = false) :=
  existencePrecheck_spec _ ⟨5242880, 0⟩ rfl (by decide)

theorem loadPartsAll_error_propagates (b k uid : String) (e : S3Error) :
    ∀ (oks : List PartsPage) (marker : Option Nat) (rest : List (Except S3Error PartsPage)),
      (∀ p ∈ oks, p.isTruncated = true) →
      (loadPartsAll b k uid marker (oks.map Except.ok ++ .error e :: rest)).2 =
        .error (.s3 e) := by
  intro oks
  induction oks with
  | nil =>
    intro marker rest _
    rfl
  | cons p oks2 ih =>
    intro marker rest hall
    rw [List.map_cons, List.cons_append, loadPartsAll]
    have hp : p.isTruncated = true := hall p (by simp)
    simp only [hp, if_true]
    rw [show ((loadPartsAll b k uid p.nextMarker (oks2.map Except.ok ++ .error e :: rest)).2.map
      (fun more => p.parts ++ more)) = ((Except.error (RunError.s3 e) : Except RunError
        (List UploadedPart)).map (fun more => p.parts ++ more)) from by
      rw [ih p.nextMarker rest (fun q hq => hall q (by simp [hq]))]]
    rfl

/-- C8 (Remote transport errors): every remote operation the coordinator
invokes propagates a transport error un-wrapped and aborts the run with
exactly that error, without being caught, retried (each call appears
once in the trace) or converted into a normal result: shown for
`head_object`, `list_multipart_uploads`, `list_parts` (at any page),
`create_multipart_upload`, `upload_part` and
`complete_multipart_upload`. Only `head_object` has an exception
handler, and it catches `ClientError` responses alone — a transport
error there aborts the run too. -/
theorem transportErrors_spec (env : Env) (plan : ChunkPlan) (m : String) (e : S3Error) :
    (env.headResp = .error (.transportError m) →
      uploadFlow env plan =
        ⟨[.headObject env.bucket env.dest_key], .error (.s3 (.transportError m)), false⟩) ∧
    (∀ c, env.headResp = .error (.clientError c) → env.listUploadsResp = .error e →
      uploadFlow env plan =
        ⟨[.headObject env.bucket env.dest_key, .listMultipartUploads env.bucket],
          .error (.s3 e), false⟩) ∧
    (∀ b k uid marker (oks : List PartsPage) rest,
      (∀ p ∈ oks, p.isTruncated = true) →
      (loadPartsAll b k uid marker (oks.map Except.ok ++ .error e :: rest)).2 =
        .error (.s3 e)) ∧
    (∀ c us, env.headResp = .error (.clientError c) → env.listUploadsResp = .ok us →
      matchingUploads env us = [] → env.upload_id_arg = "" → env.createResp = .error e →
      uploadFlow env plan =
        ⟨[.headObject env.bucket env.dest_key, .listMultipartUploads env.bucket,
          .createMultipartUpload env.bucket env.dest_key], .error (.s3 e), false⟩) ∧
    (∀ c us uid, env.headResp = .error (.clientError c) → env.listUploadsResp = .ok us →
      matchingUploads env us = [] → env.upload_id_arg = "" → env.createResp = .ok uid →
      0 < plan.part_count →
      (readLen env.actual_size (startOffset plan.part_size_in_bytes env.filesize 0)
        plan.part_size_in_bytes : Int) = thisPartSize plan.part_size_in_bytes env.filesize 0 →
      env.uploadPartResp 1 = .error e →
      uploadFlow env plan =
        ⟨[.headObject env.bucket env.dest_key, .listMultipartUploads env.bucket,
          .createMultipartUpload env.bucket env.dest_key,
          .uploadPart env.bucket env.dest_key uid 1
            (thisPartSize plan.part_size_in_bytes env.filesize 0).toNat],
          .error (.s3 e), false⟩) ∧
    (∀ c us uid, env.headResp = .error (.clientError c) → env.listUploadsResp = .ok us →
      matchingUploads env us = [] → env.upload_id_arg = "" → env.createResp = .ok uid →
      plan.part_count = 0 → env.filesize = 0 → env.completeResp = .error e →
      uploadFlow env plan =
        ⟨[.headObject env.bucket env.dest_key, .listMultipartUploads env.bucket,
          .createMultipartUpload env.bucket env.dest_key,
          .completeMultipartUpload env.bucket env.dest_key uid []],
          .error (.s3 e), false⟩) := by
  refine ⟨?_, ?_, ?_, ?_, ?_, ?_⟩
  · intro h
    simp only [uploadFlow, isExistingInS3, h]
  · intro c hh hl
    simp only [uploadFlow, isExistingInS3, hh, checkExistingUploads, hl]
    simp
  · intro b k uid marker oks rest hall
    exact loadPartsAll_error_propagates b k uid e oks marker rest hall
  · intro c us hh hl hm hid hcr
    have hchk : checkExistingUploads env = ([.listMultipartUploads env.bucket], .ok none) := by
      simp only [checkExistingUploads, hl, hm]
      rw [if_neg (fun hcc => hcc hid)]
    simp only [uploadFlow, isExistingInS3, hh, hchk]
    simp only [freshUploadRun, createMultipartUploadRun, hcr]
    simp
  · intro c us uid hh hl hm hid hcr hcount hread hupr
    have hchk : checkExistingUploads env = ([.listMultipartUploads env.bucket], .ok none) := by
      simp only [checkExistingUploads, hl, hm]
      rw [if_neg (fun hcc => hcc hid)]
    have hfuel : plan.part_count - 0 = (plan.part_count - 1) + 1 := by omega
    have haux : uploadPartsAux env uid plan.part_size_in_bytes env.filesize 0
        ((plan.part_count - 1) + 1) =
        ([.uploadPart env.bucket env.dest_key uid 1
            (thisPartSize plan.part_size_in_bytes env.filesize 0).toNat],
          .error (.s3 e)) := by
      rw [uploadPartsAux]
      rw [if_neg (fun hc => hc hread)]
      rw [hupr]
    simp only [uploadFlow, isExistingInS3, hh, hchk]
    simp only [freshUploadRun, createMultipartUploadRun, hcr]
    simp only [uploadPartsRun, hfuel, haux]
    simp
  · intro c us uid hh hl hm hid hcr hcount hF hcp
    have hchk : checkExistingUploads env = ([.listMultipartUploads env.bucket], .ok none) := by
      simp only [checkExistingUploads, hl, hm]
      rw [if_neg (fun hcc => hcc hid)]
    have hfuel : plan.part_count - 0 = 0 := by omega
    have haux : uploadPartsAux env uid plan.part_size_in_bytes env.filesize 0 0 =
        ([], .ok []) := rfl
    simp only [uploadFlow, isExistingInS3, hh, hchk]
    simp only [freshUploadRun, createMultipartUploadRun, hcr]
    simp only [uploadPartsRun, hfuel, haux]
    simp [finalizeUploadRun, hcp, hF]

/-- C9 (ShortReadError): if at chunk index `i` the local file yields
fewer bytes than the computed chunk size, the transfer fails immediately
with `ShortReadError`; the trace contains send calls only for the chunks
before `i` (chunk `i + 1` is never sent, no further chunks are sent, and
the failing read is not retried). -/
theorem shortRead_spec (env : Env) (uid : String) (ps F start r i : Nat)
    (hstart : start ≤ i) (hfuel : i < start + r)
    (hclean : ∀ j, start ≤ j → j < i →
      ((readLen env.actual_size (startOffset ps F j) ps : Int) = thisPartSize ps F j ∧
        ∃ t, env.uploadPartResp (j + 1) = .ok t))
    (hshort : (readLen env.actual_size (startOffset ps F i) ps : Int) <
      thisPartSize ps F i) :
    uploadPartsAux env uid ps F start r =
      ((List.range' start (i - start)).map (fun j =>
          RemoteCall.uploadPart env.bucket env.dest_key uid (j + 1) (thisPartSize ps F j).toNat),
        .error (.shortRead (thisPartSize ps F i).toNat
          (readLen env.actual_size (startOffset ps F i) ps))) ∧
    (∀ b2 k2 u2 len, RemoteCall.uploadPart b2 k2 u2 (i + 1) len ∉
      (uploadPartsAux env uid ps F start r).1) := by
  have hmain : ∀ (r2 s2 : Nat), s2 ≤ i → i < s2 + r2 →
      (∀ j, s2 ≤ j → j < i →
        ((readLen env.actual_size (startOffset ps F j) ps : Int) = thisPartSize ps F j ∧
          ∃ t, env.uploadPartResp (j + 1) = .ok t)) →
      uploadPartsAux env uid ps F s2 r2 =
        ((List.range' s2 (i - s2)).map (fun j =>
            RemoteCall.uploadPart env.bucket env.dest_key uid (j + 1)
              (thisPartSize ps F j).toNat),
          .error (.shortRead (thisPartSize ps F i).toNat
            (readLen env.actual_size (startOffset ps F i) ps))) := by
    intro r2
    induction r2 with
    | zero =>
      intro s2 h1 h2 _
      exact absurd h2 (by omega)
    | succ r2 ih =>
      intro s2 h1 h2 hcl
      by_cases hsi : s2 = i
      · subst hsi
        rw [uploadPartsAux]
        rw [if_pos (by
          intro hc
          rw [hc] at hshort
          exact lt_irrefl _ hshort)]
        simp
      · rcases hcl s2 (Nat.le_refl _) (by omega) with ⟨hread, t, ht⟩
        rw [uploadPartsAux]
        rw [if_neg (fun hc => hc hread)]
        rw [ht]
        simp only []
        rw [ih (s2 + 1) (by omega) (by omega) (fun j ha hb => hcl j (by omega) hb)]
        rw [show i - s2 = (i - (s2 + 1)) + 1 by omega, List.range'_succ]
        simp [Except.map]
  have h1 := hmain r start hstart hfuel hclean
  refine ⟨h1, ?_⟩
  intro b2 k2 u2 len hmem
  rw [h1] at hmem
  simp only [List.mem_map, List.mem_range'] at hmem
  rcases hmem with ⟨j, hj, heq⟩
  have : j + 1 = i + 1 := by
    cases heq
    rfl
  omega

/-- Witness for `shortRead_spec`: a 10-byte file planned into parts of 4
bytes has shrunk to 5 bytes; part 1 reads cleanly, part 2 reads 1 byte
instead of 4 and the transfer stops with `ShortReadError` after having
sent only part 1. -/
theorem shortRead_spec_witness :
    uploadPartsAux (⟨"b", "k", "", 10, none, 5, .error (.clientError "404"), .ok [], [],
        .ok "U", fun _ => .ok "t1", .ok (), false, false, false⟩ : Env) "U" 4 10 0 3 =
      ((List.range' 0 (1 - 0)).map (fun j =>
          RemoteCall.uploadPart "b" "k" "U" (j + 1) (thisPartSize 4 10 j).toNat),
        .error (.shortRead (thisPartSize 4 10 1).toNat (readLen 5 (startOffset 4 10 1) 4))) ∧
    (∀ b2 k2 u2 len, RemoteCall.uploadPart b2 k2 u2 (1 + 1) len ∉
      (uploadPartsAux (⟨"b", "k", "", 10, none, 5, .error (.clientError "404"), .ok [], [],
        .ok "U", fun _ => .ok "t1", .ok (), false, false, false⟩ : Env) "U" 4 10 0 3).1) :=
  shortRead_spec _ "U" 4 10 0 3 1 (by decide) (by decide)
    (fun j h1 h2 => by
      have hj : j = 0 := by omega
      subst hj
      exact ⟨by decide, "t1", rfl⟩)
    (by decide)

/-- C10 (Empty-file edge case): for a file of size 0 with no explicit
part size, no existing session and no existing destination object, the
planner yields part size 5 MiB and part count 0 without error, the
transfer loop sends zero chunks, and `upload` still creates a session
and issues a finalize request with an empty part list, without a
size-mismatch diagnostic. -/
theorem emptyFile_spec :
    determinePartCount 0 none = .ok { part_size_in_bytes := 5242880, part_count := 0 } ∧
    runUpload (⟨"b", "k", "", 0, none, 0, .error (.clientError "404"), .ok [], [],
        .ok "U", fun _ => .error (.transportError "unused"), .ok (),
        false, false, false⟩ : Env) =
      { calls := [.headObject "b" "k", .listMultipartUploads "b",
          .createMultipartUpload "b" "k", .completeMultipartUpload "b" "k" "U" []],
        result := .ok (), warned := false } := by
  constructor
  · decide
  · decide

/-- Witness for `partPlanner_spec`: an explicit part size of 1000 bytes
is rejected with the exit-1 configuration error. -/
theorem partPlanner_spec_witness :
    ∃ d, determinePartCount 12000000 (some 1000) = .error (.exitCode 1 d) :=
  ((partPlanner_spec 12000000 (some 1000)).2.1).mpr (by decide)

/-- Witness for `consistencyValidator_spec`: a single accepted chunk
numbered 1 validates (its size is exempt as the last of the sequence)
and the validated count is 1. -/
theorem consistencyValidator_spec_witness :
    validateParts 5242880 [⟨1, "", 42, "e1"⟩] = .ok 1 :=
  ((consistencyValidator_spec 5242880 [⟨1, "", 42, "e1"⟩]).1).mpr
    (by
      constructor
      · simp [sortedByNumber]
      · intro i p hcond hget
        simp at hcond)

/-- Witness for `chunkGeometry_spec` at scenario A:
`F = 12000000`, part size 5242880, 3 parts. -/
theorem chunkGeometry_spec_witness :
    (∀ i, i < 3 →
        startOffset 5242880 12000000 i = (i : Int) * (5242880 : Nat) ∧
        endOffset 5242880 12000000 i =
          min (((i : Int) + 1) * (5242880 : Nat)) ((12000000 : Nat) : Int) - 1) ∧
    startOffset 5242880 12000000 0 = 0 ∧
    endOffset 5242880 12000000 (3 - 1) = ((12000000 : Nat) : Int) - 1 ∧
    (∀ i, i + 1 < 3 →
      startOffset 5242880 12000000 (i + 1) = endOffset 5242880 12000000 i + 1) ∧
    (∀ i j, i < j → j < 3 →
      endOffset 5242880 12000000 i < startOffset 5242880 12000000 j) ∧
    (∑ i ∈ Finset.range 3, thisPartSize 5242880 12000000 i) = ((12000000 : Nat) : Int) ∧
    (∀ i, i + 1 < 3 → thisPartSize 5242880 12000000 i = ((5242880 : Nat) : Int)) :=
  chunkGeometry_spec 12000000 5242880 3 (by decide) (by decide) (by decide)

/-- Witness for `completionCoordinator_spec` at scenario D: summed part
sizes 11999999 against recorded size 12000000 emit the size-mismatch
diagnostic. -/
theorem completionCoordinator_spec_witness :
    (finalizeUploadRun (⟨"b", "k", "", 12000000, none, 12000000,
        .error (.clientError "404"), .ok [], [], .ok "U", fun _ => .ok "t", .ok (),
        false, false, false⟩ : Env)
      [⟨1, "", 5242880, "e1"⟩, ⟨2, "", 5242880, "e2"⟩, ⟨3, "", 1514239, "e3"⟩]
      "U").warned = true :=
  ((completionCoordinator_spec.1 _
    [⟨1, "", 5242880, "e1"⟩, ⟨2, "", 5242880, "e2"⟩, ⟨3, "", 1514239, "e3"⟩]
    "U").1).mpr (by decide)

/-- Witness for `transportErrors_spec`: a transport failure of the
`head_object` probe aborts the whole run with that exact error after a
single remote call. -/
theorem transportErrors_spec_witness :
    uploadFlow (⟨"b", "k", "", 0, none, 0, .error (.transportError "connection reset"),
        .ok [], [], .ok "U", fun _ => .ok "t", .ok (), false, false, false⟩ : Env)
      ⟨5242880, 0⟩ =
      ⟨[.headObject "b" "k"], .error (.s3 (.transportError "connection reset")), false⟩ :=
  (transportErrors_spec _ ⟨5242880, 0⟩ "connection reset" (S3Error.clientError "x")).1 rfl

/-- Witness for `sessionDisambiguation_spec`: an empty listing without
an explicit upload id resolves to a fresh upload. -/
theorem sessionDisambiguation_spec_witness :
    (checkExistingUploads (⟨"b", "k", "", 0, none, 0, .error (.clientError "404"),
        .ok [], [], .ok "U", fun _ => .ok "t", .ok (), false, false, false⟩ : Env)).2 =
      .ok none :=
  (sessionDisambiguation_spec _ [] rfl).2.1 (by decide) rfl
